import Mathlib

/-!
Verification of the combinational circuit evaluator of the logic-gates
teaching repository.

The development shallowly embeds the Python sources:

* `src/app.py` — the "Interactive Logic Circuit Simulator": the seven pure
  gate functions `AND` … `NOT`, the `gate_functions` dictionary, the
  `add_connection` mutation, and the propagation engine `compute_output`
  which walks `nx.topological_sort(graph)` and evaluates each node.
* `src/test.py` — the "Advanced Circuit Simulator": the `DFlipFlop` class
  and the `compute_circuit` propagation variant.
* `src/updated/arduino.py` — the hardware bridge's `GATE` operation.

Python dictionaries are modelled as association lists where an assignment
prepends a binding and `lookup` returns the most recent one; Python
exceptions (`TypeError`, `KeyError`, `IndexError`, and networkx's
`NetworkXUnfeasible` raised on cyclic graphs) are modelled with `Except`.
`nx.topological_sort` is a lazy generator implementing Kahn's algorithm:
it yields every node that is not blocked behind a cycle and only raises
the cycle error once the yielded nodes are exhausted; `topological_sort`
below therefore returns both the yielded list and the blocked leftover.
-/

/-- Python exceptions that the embedded code can raise. `cycleDetected`
models networkx's `NetworkXUnfeasible` (the spec's `CycleDetectedError`). -/
inductive PyError where
  | typeError
  | keyError
  | indexError
  | cycleDetected
deriving DecidableEq, Repr

/-- The closed set of node kinds occurring across the simulators.  The
Python sources store the kind as a string (`"AND"`, `"Input"`, `"DFF"`, …);
the UI selection lists only ever produce the tags below, so a closed
inductive is a faithful model of the string tag. -/
inductive Kind where
  | INPUT
  | OUTPUT
  | AND
  | OR
  | XOR
  | NAND
  | NOR
  | XNOR
  | NOT
  | DFF
  | JKFF
  | COUNTER
  | SEG7
deriving DecidableEq, Repr

/-- Dictionary lookup: the value of the most recent binding of `k`,
modelling `d[k]` returning `some` or the absence that raises `KeyError`. -/
def lookup {α : Type} (m : List (String × α)) (k : String) : Option α :=
  (m.find? (fun p => p.1 == k)).map (fun p => p.2)

/-- Dictionary assignment `d[k] = v`: prepend a binding (the most recent
binding shadows older ones under `lookup`). -/
def setv {α : Type} (m : List (String × α)) (k : String) (v : α) :
    List (String × α) :=
  (k, v) :: m

/-- `def AND(a, b): return int(a and b)` — Python `and` returns `a` when
`a` is falsy (i.e. `0`) and `b` otherwise; `int` is the identity here. -/
def AND (a b : Nat) : Nat := if a = 0 then 0 else b

/-- `def OR(a, b): return int(a or b)`. -/
def OR (a b : Nat) : Nat := if a = 0 then b else a

/-- `def XOR(a, b): return int(a ^ b)` — bitwise xor. -/
def XOR (a b : Nat) : Nat := a ^^^ b

/-- `def NAND(a, b): return int(not (a and b))`. -/
def NAND (a b : Nat) : Nat := if (if a = 0 then 0 else b) = 0 then 1 else 0

/-- `def NOR(a, b): return int(not (a or b))`. -/
def NOR (a b : Nat) : Nat := if (if a = 0 then b else a) = 0 then 1 else 0

/-- `def XNOR(a, b): return int(not (a ^ b))`. -/
def XNOR (a b : Nat) : Nat := if a ^^^ b = 0 then 1 else 0

/-- `def NOT(a): return int(not a)`. -/
def NOT (a : Nat) : Nat := if a = 0 then 1 else 0

/-- A Python function stored in the `gate_functions` dictionary: the
entries have different arities (`NOT` is unary, the rest binary). -/
inductive GateFn where
  | unary (f : Nat → Nat)
  | binary (f : Nat → Nat → Nat)

/-- The `gate_functions` dictionary of `src/app.py` line 27: only the
seven gate tags are keys; looking up any other kind raises `KeyError`. -/
def gate_functions : Kind → Option GateFn
  | .AND => some (.binary AND)
  | .OR => some (.binary OR)
  | .XOR => some (.binary XOR)
  | .NAND => some (.binary NAND)
  | .NOR => some (.binary NOR)
  | .XNOR => some (.binary XNOR)
  | .NOT => some (.unary NOT)
  | _ => none

/-- The circuit graph: `st.session_state.circuit_graph`, a networkx
`DiGraph` with nodes and directed edges kept in insertion order. -/
structure Graph where
  nodes : List String
  edges : List (String × String)
deriving DecidableEq, Repr

/-- `graph.predecessors(node)`: sources of the wires into `n`, in wire
insertion order (networkx keeps adjacency in insertion order and a
`DiGraph` stores each edge at most once). -/
def predecessors (g : Graph) (n : String) : List String :=
  (g.edges.filter (fun e => e.2 == n)).map (fun e => e.1)

/-- One round of Kahn's algorithm as performed by `nx.topological_sort`:
a node of `remaining` is ready when no edge from a remaining node enters
it.  The function returns the yielded order together with the leftover
nodes (those blocked behind a cycle); the fuel is the initial node count. -/
def kahnAux (edges : List (String × String)) :
    Nat → List String → List String × List String
  | 0, remaining => ([], remaining)
  | fuel + 1, remaining =>
    match remaining.find?
        (fun n => !(edges.any (fun e => e.2 == n && remaining.contains e.1))) with
    | none => ([], remaining)
    | some n =>
      let r := kahnAux edges fuel (remaining.erase n)
      (n :: r.1, r.2)

/-- `nx.topological_sort(graph)` as consumed by a `for` loop: the first
component is the sequence of yielded nodes, the second the nodes never
yielded; the generator raises `NetworkXUnfeasible` (after the last yield)
exactly when the second component is nonempty. -/
def topological_sort (g : Graph) : List String × List String :=
  kahnAux g.edges g.nodes.length g.nodes

/-- The body of the `for node in nx.topological_sort(graph)` loop of
`compute_output` (`src/app.py` lines 91–104): skip nodes that already
have a value, evaluate `NOT` nodes with one predecessor, evaluate any
node with two predecessors through the `gate_functions` dictionary
(calling the unary `NOT` with two arguments raises `TypeError`, and kinds
absent from the dictionary raise `KeyError`), and give every other node
the default value `0`. -/
def step (g : Graph) (kinds : List (String × Kind))
    (values : List (String × Nat)) (node : String) :
    Except PyError (List (String × Nat)) :=
  if (lookup values node).isSome then .ok values
  else
    match lookup kinds node with
    | none => .error .keyError
    | some gt =>
      if gt = Kind.NOT ∧ (predecessors g node).length = 1 then
        match lookup values ((predecessors g node).headD "") with
        | none => .error .keyError
        | some a => .ok (setv values node (NOT a))
      else if (predecessors g node).length = 2 then
        match lookup values ((predecessors g node).headD ""),
            lookup values ((predecessors g node).getD 1 "") with
        | none, _ => .error .keyError
        | some _, none => .error .keyError
        | some a, some b =>
          match gate_functions gt with
          | none => .error .keyError
          | some (.unary _) => .error .typeError
          | some (.binary f) => .ok (setv values node (f a b))
      else .ok (setv values node 0)

/-- `compute_output(graph, inputs)` of `src/app.py` lines 88–106: start
from a copy of `inputs`, run the loop body over the nodes yielded by the
topological-sort generator, and raise the cycle error if the generator
had leftover (cycle-blocked) nodes. -/
def compute_output (g : Graph) (kinds : List (String × Kind))
    (inputs : List (String × Nat)) : Except PyError (List (String × Nat)) :=
  match (topological_sort g).1.foldlM (step g kinds) inputs with
  | .error e => .error e
  | .ok m => if (topological_sort g).2.isEmpty then .ok m else .error .cycleDetected

/-- The `DFlipFlop` class of `src/test.py` lines 27–36. -/
structure DFlipFlop where
  state : Nat
  prev_clk : Nat
deriving DecidableEq, Repr

/-- `DFlipFlop.update(D, clk)`: store `D` when `clk > prev_clk` and
`clk == 1`, remember the clock sample, and return the stored state.  The
result pairs the returned value with the mutated object. -/
def DFlipFlop.update (ff : DFlipFlop) (D clk : Nat) : Nat × DFlipFlop :=
  let st := if ff.prev_clk < clk ∧ clk = 1 then D else ff.state
  (st, ⟨st, clk⟩)

/-- The list comprehension `[values[p] for p in preds]`; a missing value
raises `KeyError`. -/
def predValues (values : List (String × Nat)) : List String → Option (List Nat)
  | [] => some []
  | p :: ps =>
    match lookup values p, predValues values ps with
    | some v, some vs => some (v :: vs)
    | _, _ => none

/-- The body of the `for node in nx.topological_sort(graph)` loop of
`compute_circuit` (`src/test.py` lines 60–77): skip nodes with a value;
for sequential kinds only a `DFF` with at least two predecessors does
anything (reading `D` and the clock and updating the stored flip-flop);
combinational kinds evaluate `AND` via `all`, `OR` via `any` and `NOT`
via its first operand (`IndexError` when it has none) — every other kind
(including `XOR`) falls through and is left without a value. -/
def circStep (g : Graph) (kinds : List (String × Kind))
    (acc : List (String × Nat) × List (String × DFlipFlop)) (node : String) :
    Except PyError (List (String × Nat) × List (String × DFlipFlop)) :=
  if (lookup acc.1 node).isSome then .ok acc
  else
    match lookup kinds node with
    | none => .error .keyError
    | some ct =>
      if ct = Kind.DFF ∨ ct = Kind.JKFF ∨ ct = Kind.COUNTER then
        if ct = Kind.DFF ∧ 2 ≤ (predecessors g node).length then
          match lookup acc.1 ((predecessors g node).headD ""),
              lookup acc.1 ((predecessors g node).getD 1 "") with
          | none, _ => .error .keyError
          | some _, none => .error .keyError
          | some d, some clk =>
            match lookup acc.2 node with
            | none => .error .keyError
            | some ff =>
              let r := ff.update d clk
              .ok (setv acc.1 node r.1, setv acc.2 node r.2)
        else .ok acc
      else
        match predValues acc.1 (predecessors g node) with
        | none => .error .keyError
        | some ins =>
          if ct = Kind.AND then
            .ok (setv acc.1 node (if ins.all (fun v => v != 0) then 1 else 0), acc.2)
          else if ct = Kind.OR then
            .ok (setv acc.1 node (if ins.any (fun v => v != 0) then 1 else 0), acc.2)
          else if ct = Kind.NOT then
            match ins with
            | [] => .error .indexError
            | a :: _ => .ok (setv acc.1 node (if a = 0 then 1 else 0), acc.2)
          else .ok acc

/-- `compute_circuit()` of `src/test.py` lines 56–79, with the session
state made explicit: `inputs` is `st.session_state.components["values"]`
(copied), `seq` the dictionary of flip-flop objects; the result is the
final values dictionary together with the updated sequential state. -/
def compute_circuit (g : Graph) (kinds : List (String × Kind))
    (inputs : List (String × Nat)) (seq : List (String × DFlipFlop)) :
    Except PyError (List (String × Nat) × List (String × DFlipFlop)) :=
  match (topological_sort g).1.foldlM (circStep g kinds) (inputs, seq) with
  | .error e => .error e
  | .ok r => if (topological_sort g).2.isEmpty then .ok r else .error .cycleDetected

/-- `graph.add_edge(u, v)` on a networkx `DiGraph`: missing endpoints are
silently added as nodes and a duplicate edge is ignored. -/
def Graph.add_edge (g : Graph) (u v : String) : Graph :=
  let ns := if u ∈ g.nodes then g.nodes else g.nodes ++ [u]
  let ns := if v ∈ ns then ns else ns ++ [v]
  { nodes := ns
    edges := if (u, v) ∈ g.edges then g.edges else g.edges ++ [(u, v)] }

/-- The wire-adding handler of `src/app.py` lines 78–80: connect the two
selected nodes unless they are the same node, in which case nothing at
all happens. -/
def add_connection (g : Graph) (node1 node2 : String) : Graph :=
  if node1 ≠ node2 then g.add_edge node1 node2 else g

/-- The `GATE` operation of the hardware bridge (`src/updated/arduino.py`
lines 32–59): C++ truthiness on the two `int` inputs, one branch per gate
tag; a tag matching no branch produces no output (`none`). -/
def loopGateOutput (gate_type : String) (inputA inputB : Nat) : Option Nat :=
  if gate_type = "AND" then some (if inputA ≠ 0 ∧ inputB ≠ 0 then 1 else 0)
  else if gate_type = "OR" then some (if inputA ≠ 0 ∨ inputB ≠ 0 then 1 else 0)
  else if gate_type = "XOR" then some (if inputA ≠ inputB then 1 else 0)
  else if gate_type = "NAND" then some (if inputA ≠ 0 ∧ inputB ≠ 0 then 0 else 1)
  else if gate_type = "NOR" then some (if inputA ≠ 0 ∨ inputB ≠ 0 then 0 else 1)
  else if gate_type = "XNOR" then some (if inputA = inputB then 1 else 0)
  else if gate_type = "NOT" then some (if inputA = 0 then 1 else 0)
  else none

/-- The wire relation restricted as in the spec's cycle condition: an
edge of the graph between two non-`INPUT` nodes of the graph. -/
def wireCycleRel (g : Graph) (kinds : List (String × Kind)) (a b : String) : Prop :=
  (a, b) ∈ g.edges ∧ a ∈ g.nodes ∧ b ∈ g.nodes ∧
    lookup kinds a ≠ some Kind.INPUT ∧ lookup kinds b ≠ some Kind.INPUT

/-- The graph contains a cycle among non-`INPUT` nodes. -/
def HasNonInputCycle (g : Graph) (kinds : List (String × Kind)) : Prop :=
  ∃ n, Relation.TransGen (wireCycleRel g kinds) n n

/-- The graph's wire relation is acyclic: no node reaches itself through
a nonempty chain of wires. -/
def Acyclic (g : Graph) : Prop :=
  ¬ ∃ n, Relation.TransGen (fun a b => (a, b) ∈ g.edges) n n

/-! ## Basic dictionary lemmas -/

theorem lookup_setv {α : Type} (m : List (String × α)) (k q : String) (v : α) :
    lookup (setv m k v) q = if q = k then some v else lookup m q := by
  rcases eq_or_ne q k with h | h
  · subst h
    unfold lookup setv
    rw [List.find?_cons_of_pos]
    · simp
    · simp
  · rw [if_neg h]
    unfold lookup setv
    rw [List.find?_cons_of_neg]
    simp only [beq_iff_eq]
    exact fun he => h he.symm

theorem lookup_setv_self {α : Type} (m : List (String × α)) (k : String) (v : α) :
    lookup (setv m k v) k = some v := by
  simp [lookup_setv]

theorem lookup_setv_ne {α : Type} (m : List (String × α)) (k q : String) (v : α)
    (h : q ≠ k) : lookup (setv m k v) q = lookup m q := by
  simp [lookup_setv, h]

/-! ## Properties of the loop body of `compute_output` -/

/-- A successful loop-body step either keeps the dictionary (the node was
skipped) or binds the processed node, which previously had no value. -/
theorem step_cases (g : Graph) (kinds : List (String × Kind))
    (values : List (String × Nat)) (node : String) (values' : List (String × Nat))
    (h : step g kinds values node = .ok values') :
    values' = values ∨ (lookup values node = none ∧ ∃ w, values' = setv values node w) := by
  unfold step at h
  by_cases hv : (lookup values node).isSome
  · rw [if_pos hv] at h
    exact Or.inl (Except.ok.inj h).symm
  · rw [if_neg hv] at h
    right
    refine ⟨Option.not_isSome_iff_eq_none.mp hv, ?_⟩
    repeat' split at h
    all_goals first
      | exact Except.noConfusion h
      | exact ⟨_, (Except.ok.inj h).symm⟩

theorem step_lookup_some (g : Graph) (kinds : List (String × Kind))
    (values : List (String × Nat)) (node : String) (values' : List (String × Nat))
    (h : step g kinds values node = .ok values') (q : String) (v : Nat)
    (hq : lookup values q = some v) : lookup values' q = some v := by
  rcases step_cases g kinds values node values' h with h1 | ⟨hn, w, h2⟩
  · rw [h1]; exact hq
  · subst h2
    have hqn : q ≠ node := fun he => by rw [he, hn] at hq; cases hq
    rw [lookup_setv_ne _ _ _ _ hqn]; exact hq

theorem step_lookup_other (g : Graph) (kinds : List (String × Kind))
    (values : List (String × Nat)) (node : String) (values' : List (String × Nat))
    (h : step g kinds values node = .ok values') (q : String) (hq : q ≠ node) :
    lookup values' q = lookup values q := by
  rcases step_cases g kinds values node values' h with h1 | ⟨hn, w, h2⟩
  · rw [h1]
  · subst h2; exact lookup_setv_ne _ _ _ _ hq

theorem foldlM_step_preserve (g : Graph) (kinds : List (String × Kind)) :
    ∀ (rest : List String) (acc m : List (String × Nat)),
      rest.foldlM (step g kinds) acc = .ok m →
      ∀ (q : String) (v : Nat), lookup acc q = some v → lookup m q = some v := by
  intro rest
  induction rest with
  | nil =>
    intro acc m h q v hq
    rw [show acc = m from Except.ok.inj h] at hq
    exact hq
  | cons x rest ih =>
    intro acc m h q v hq
    rw [List.foldlM_cons] at h
    cases hs : step g kinds acc x with
    | error e => rw [hs] at h; exact Except.noConfusion h
    | ok acc' =>
      rw [hs] at h
      exact ih acc' m h q v (step_lookup_some g kinds acc x acc' hs q v hq)

/-- A node with no value yet whose wiring matches neither the unary-`NOT`
case nor the two-predecessor case is bound to the default `0`. -/
theorem step_else (g : Graph) (kinds : List (String × Kind))
    (values : List (String × Nat)) (node : String) (k : Kind)
    (hnone : lookup values node = none)
    (hkind : lookup kinds node = some k)
    (hnot1 : ¬(k = Kind.NOT ∧ (predecessors g node).length = 1))
    (h2 : (predecessors g node).length ≠ 2) :
    step g kinds values node = .ok (setv values node 0) := by
  unfold step
  rw [hnone, hkind]
  simp only [Option.isSome_none, Bool.false_eq_true, if_false]
  rw [if_neg hnot1, if_neg h2]

/-- If the loop reaches such a node, it ends up bound to `0` in the final
dictionary. -/
theorem foldlM_step_else_zero (g : Graph) (kinds : List (String × Kind))
    (n : String) (k : Kind) (hkind : lookup kinds n = some k)
    (hnot1 : ¬(k = Kind.NOT ∧ (predecessors g n).length = 1))
    (h2 : (predecessors g n).length ≠ 2) :
    ∀ (rest : List String) (acc m : List (String × Nat)),
      rest.foldlM (step g kinds) acc = .ok m →
      n ∈ rest → lookup acc n = none → lookup m n = some 0 := by
  intro rest
  induction rest with
  | nil => intro acc m _ hn; cases hn
  | cons x rest ih =>
    intro acc m h hn hnone
    rw [List.foldlM_cons] at h
    cases hs : step g kinds acc x with
    | error e => rw [hs] at h; exact Except.noConfusion h
    | ok acc' =>
      rw [hs] at h
      by_cases hx : x = n
      · subst hx
        rw [step_else g kinds acc x k hnone hkind hnot1 h2] at hs
        rw [show acc' = setv acc x 0 from (Except.ok.inj hs).symm] at h
        exact foldlM_step_preserve g kinds rest _ m h x 0 (lookup_setv_self acc x 0)
      · have hn' : n ∈ rest := by
          cases hn with
          | head => exact absurd rfl hx
          | tail _ hm => exact hm
        have hnone' : lookup acc' n = none := by
          rw [step_lookup_other g kinds acc x acc' hs n (fun he => hx he.symm)]
          exact hnone
        exact ih acc' m h hn' hnone'

/-! ## The topological-sort generator -/

theorem kahnAux_perm (edges : List (String × String)) :
    ∀ (fuel : Nat) (rem : List String),
      List.Perm ((kahnAux edges fuel rem).1 ++ (kahnAux edges fuel rem).2) rem := by
  intro fuel
  induction fuel with
  | zero => intro rem; simp [kahnAux]
  | succ fuel ih =>
    intro rem
    unfold kahnAux
    cases hf : rem.find?
        (fun n => !(edges.any (fun e => e.2 == n && rem.contains e.1))) with
    | none => simp
    | some n =>
      have hn : n ∈ rem := List.mem_of_find?_eq_some hf
      simp only []
      have h1 : List.Perm
          (n :: ((kahnAux edges fuel (rem.erase n)).1 ++ (kahnAux edges fuel (rem.erase n)).2))
          (n :: rem.erase n) := (ih (rem.erase n)).cons n
      exact h1.trans (List.perm_cons_erase hn).symm

/-- When the generator yields every node (no leftover), the yielded order
is a permutation of the graph's nodes. -/
theorem topological_sort_perm (g : Graph)
    (h : (topological_sort g).2 = []) :
    List.Perm (topological_sort g).1 g.nodes := by
  have hp := kahnAux_perm g.edges g.nodes.length g.nodes
  rw [show kahnAux g.edges g.nodes.length g.nodes = topological_sort g from rfl, h,
    List.append_nil] at hp
  exact hp

/-- Unpacking a successful evaluation: the fold over the yielded nodes
succeeded and no node was left blocked behind a cycle. -/
theorem compute_output_ok_iff (g : Graph) (kinds : List (String × Kind))
    (inputs m : List (String × Nat)) :
    compute_output g kinds inputs = .ok m ↔
      (topological_sort g).1.foldlM (step g kinds) inputs = .ok m ∧
        (topological_sort g).2 = [] := by
  unfold compute_output
  cases hf : (topological_sort g).1.foldlM (step g kinds) inputs with
  | error e => simp
  | ok m' =>
    cases hl : (topological_sort g).2 with
    | nil => simp [List.isEmpty]
    | cons a l => simp [List.isEmpty]

/-! ## Claims about the gate functions and the flip-flop -/

/-- C4: the seven gate functions, applied to arguments in {0,1}, match the
standard truth tables — `AND` is conjunction, `OR` disjunction, `XOR`
exclusive or, `NAND`/`NOR`/`XNOR` the negations, and `NOT` negation; in
particular AND(1,1)=1, XOR(1,0)=1, NAND(1,1)=0, NOR(0,0)=1, XNOR(1,1)=1,
NOT(1)=0. -/
theorem c4_gate_truth_tables :
    (∀ (a b : Bool),
      AND a.toNat b.toNat = (a && b).toNat ∧
      OR a.toNat b.toNat = (a || b).toNat ∧
      XOR a.toNat b.toNat = (Bool.xor a b).toNat ∧
      NAND a.toNat b.toNat = (!(a && b)).toNat ∧
      NOR a.toNat b.toNat = (!(a || b)).toNat ∧
      XNOR a.toNat b.toNat = (!(Bool.xor a b)).toNat ∧
      NOT a.toNat = (!a).toNat) ∧
    AND 1 1 = 1 ∧ XOR 1 0 = 1 ∧ NAND 1 1 = 0 ∧ NOR 0 0 = 1 ∧
    XNOR 1 1 = 1 ∧ NOT 1 = 0 := by
  refine ⟨?_, rfl, rfl, rfl, rfl, rfl, rfl⟩
  decide

/-- C8: a D flip-flop stores its `D` input exactly on a rising edge of the
clock (previous sample `0`, current sample `1`); any update without a
rising edge leaves the stored value unchanged even if `D` changed, as in
the scenario `D=1, clk 0→1` (stores 1) followed by `D=0, clk held at 1`
(still 1). -/
theorem c8_dff_rising_edge :
    (∀ (ff : DFlipFlop) (D clk : Nat),
      (ff.update D clk).2.state = (if ff.prev_clk = 0 ∧ clk = 1 then D else ff.state) ∧
      (ff.update D clk).2.prev_clk = clk ∧
      (ff.update D clk).1 = (ff.update D clk).2.state) ∧
    ((((((DFlipFlop.mk 0 0).update 1 0).2).update 1 1).2).update 0 1).2.state = 1 := by
  constructor
  · intro ff D clk
    refine ⟨?_, rfl, rfl⟩
    show (if ff.prev_clk < clk ∧ clk = 1 then D else ff.state) = _
    have hiff : (ff.prev_clk < clk ∧ clk = 1) ↔ (ff.prev_clk = 0 ∧ clk = 1) := by omega
    exact if_congr hiff rfl rfl
  · rfl

/-- C9: for every gate type and bit inputs, the hardware bridge's `GATE`
operation computes the same output as the pure evaluator's corresponding
gate function (`NOT` uses only the first input). -/
theorem c9_arduino_matches_pure_gates :
    ∀ (a b : Bool),
      loopGateOutput "AND" a.toNat b.toNat = some (AND a.toNat b.toNat) ∧
      loopGateOutput "OR" a.toNat b.toNat = some (OR a.toNat b.toNat) ∧
      loopGateOutput "XOR" a.toNat b.toNat = some (XOR a.toNat b.toNat) ∧
      loopGateOutput "NAND" a.toNat b.toNat = some (NAND a.toNat b.toNat) ∧
      loopGateOutput "NOR" a.toNat b.toNat = some (NOR a.toNat b.toNat) ∧
      loopGateOutput "XNOR" a.toNat b.toNat = some (XNOR a.toNat b.toNat) ∧
      loopGateOutput "NOT" a.toNat b.toNat = some (NOT a.toNat) := by
  decide

/-! ## Claims about `compute_output` -/

/-- C10: any node whose id has an entry in the supplied `input_values`
dictionary keeps its supplied value unchanged in the returned mapping —
even a gate node with wired predecessors — because the engine skips
exactly the nodes already present in the value dictionary. -/
theorem c10_supplied_values_skipped (g : Graph) (kinds : List (String × Kind))
    (inputs m : List (String × Nat)) (n : String) (v : Nat)
    (hok : compute_output g kinds inputs = .ok m)
    (hn : lookup inputs n = some v) :
    lookup m n = some v := by
  obtain ⟨hf, -⟩ := (compute_output_ok_iff g kinds inputs m).mp hok
  exact foldlM_step_preserve g kinds _ inputs m hf n v hn

def c10Graph : Graph := ⟨["A", "B", "X"], [("A", "X"), ("B", "X")]⟩

def c10Kinds : List (String × Kind) := [("A", .INPUT), ("B", .INPUT), ("X", .AND)]

def c10Inputs : List (String × Nat) := [("A", 1), ("B", 1), ("X", 0)]

/-- C10 witness: an `AND` gate with both operands `1` but a supplied value
`0` is skipped and keeps the supplied `0` instead of the computed `1`. -/
theorem c10_witness :
    compute_output c10Graph c10Kinds c10Inputs = .ok c10Inputs ∧
    lookup c10Inputs "X" = some 0 ∧ lookup c10Inputs "X" = some 0 :=
  ⟨rfl, rfl, c10_supplied_values_skipped c10Graph c10Kinds c10Inputs c10Inputs "X" 0 rfl rfl⟩

/-- C1 (amended): on a successful evaluation, every unskipped node whose
wiring matches neither the unary-`NOT` pattern nor the two-predecessor
pattern — a binary gate with zero, one, or three and more incoming wires,
or a `NOT` with zero or three and more — is given the safe default `0`.
(A `NOT` node with exactly two incoming wires instead raises `TypeError`,
see the counterexample.) -/
theorem c1_arity_mismatch_defaults_zero (g : Graph) (kinds : List (String × Kind))
    (inputs m : List (String × Nat)) (n : String) (k : Kind)
    (hok : compute_output g kinds inputs = .ok m)
    (hnode : n ∈ g.nodes)
    (hkind : lookup kinds n = some k)
    (hinp : lookup inputs n = none)
    (hnot1 : ¬(k = Kind.NOT ∧ (predecessors g n).length = 1))
    (h2 : (predecessors g n).length ≠ 2) :
    lookup m n = some 0 := by
  obtain ⟨hf, hl⟩ := (compute_output_ok_iff g kinds inputs m).mp hok
  have hmem : n ∈ (topological_sort g).1 := (topological_sort_perm g hl).mem_iff.mpr hnode
  exact foldlM_step_else_zero g kinds n k hkind hnot1 h2 _ inputs m hf hmem hinp

def c1Graph : Graph := ⟨["A", "X"], [("A", "X")]⟩

def c1Kinds : List (String × Kind) := [("A", .INPUT), ("X", .AND)]

def c1Inputs : List (String × Nat) := [("A", 1)]

/-- C1 witness: an `AND` node with a single incoming wire carrying `1`
evaluates to the default `0`. -/
theorem c1_witness :
    compute_output c1Graph c1Kinds c1Inputs = .ok [("X", 0), ("A", 1)] ∧
    lookup [(("X" : String), (0 : Nat)), ("A", 1)] "X" = some 0 :=
  ⟨rfl, c1_arity_mismatch_defaults_zero c1Graph c1Kinds c1Inputs [("X", 0), ("A", 1)]
    "X" Kind.AND rfl (by decide) rfl rfl (by decide) (by decide)⟩

def c1CexGraph : Graph := ⟨["A", "B", "X"], [("A", "X"), ("B", "X")]⟩

def c1CexKinds : List (String × Kind) := [("A", .INPUT), ("B", .INPUT), ("X", .NOT)]

/-- C1 counterexample: a `NOT` node with exactly two incoming wires makes
`compute_output` raise `TypeError` (the unary gate function is called with
two arguments) instead of setting the safe default `0`. -/
theorem c1_counterexample :
    compute_output c1CexGraph c1CexKinds [("A", 1), ("B", 1)] = .error .typeError := rfl

/-- C7 (amended): an `INPUT`-kind node with no entry in the supplied
`input_values` and with a predecessor count other than two is assigned the
default value `0` on a successful evaluation.  (With exactly two incoming
wires such a node instead raises `KeyError`: the engine looks its kind up
in the gate dictionary, which has no `"Input"` key — see the
counterexample.) -/
theorem c7_missing_input_defaults_zero (g : Graph) (kinds : List (String × Kind))
    (inputs m : List (String × Nat)) (n : String)
    (hok : compute_output g kinds inputs = .ok m)
    (hnode : n ∈ g.nodes)
    (hkind : lookup kinds n = some Kind.INPUT)
    (hinp : lookup inputs n = none)
    (h2 : (predecessors g n).length ≠ 2) :
    lookup m n = some 0 := by
  obtain ⟨hf, hl⟩ := (compute_output_ok_iff g kinds inputs m).mp hok
  have hmem : n ∈ (topological_sort g).1 := (topological_sort_perm g hl).mem_iff.mpr hnode
  exact foldlM_step_else_zero g kinds n Kind.INPUT hkind
    (fun hc => Kind.noConfusion hc.1) h2 _ inputs m hf hmem hinp

def c7Graph : Graph := ⟨["A", "X"], [("A", "X")]⟩

def c7Kinds : List (String × Kind) := [("A", .INPUT), ("X", .NOT)]

/-- C7 witness: an unwired `INPUT` node absent from `input_values` gets
the default `0`, and the `NOT` gate downstream evaluates normally to `1`. -/
theorem c7_witness :
    compute_output c7Graph c7Kinds [] = .ok [("X", 1), ("A", 0)] ∧
    lookup [(("X" : String), (1 : Nat)), ("A", 0)] "A" = some 0 :=
  ⟨rfl, c7_missing_input_defaults_zero c7Graph c7Kinds [] [("X", 1), ("A", 0)]
    "A" rfl (by decide) rfl rfl (by decide)⟩

def c7CexGraph : Graph := ⟨["A", "B", "Z"], [("A", "Z"), ("B", "Z")]⟩

def c7CexKinds : List (String × Kind) := [("A", .INPUT), ("B", .INPUT), ("Z", .INPUT)]

/-- C7 counterexample: an `INPUT`-kind node missing from `input_values`
but with exactly two incoming wires makes evaluation raise `KeyError`
instead of assigning the default `0`. -/
theorem c7_counterexample :
    compute_output c7CexGraph c7CexKinds [("A", 1), ("B", 1)] = .error .keyError := rfl

/-! ## The add-wire operation -/

/-- C6 (amended): `add_connection` never fails — a self-loop attempt is
silently ignored (the graph is returned unchanged, no wire added and no
error raised), and a wire between two distinct ids always succeeds, with
unknown endpoints implicitly added as nodes by the graph library rather
than rejected. -/
theorem c6_add_connection_behavior (g : Graph) (a b : String) :
    (a = b → add_connection g a b = g) ∧
    (a ≠ b →
      (a, b) ∈ (add_connection g a b).edges ∧
      a ∈ (add_connection g a b).nodes ∧
      b ∈ (add_connection g a b).nodes) := by
  constructor
  · intro h; subst h; simp [add_connection]
  · intro h
    unfold add_connection
    rw [if_pos h]
    unfold Graph.add_edge
    refine ⟨?_, ?_, ?_⟩
    · dsimp only
      split_ifs with h1 <;> simp [h1]
    · dsimp only
      split_ifs <;> simp_all
    · dsimp only
      split_ifs <;> simp_all

def c6Graph : Graph := ⟨["A"], []⟩

/-- C6 witness: connecting `"A"` to itself leaves the graph unchanged,
and connecting `"A"` to the fresh id `"Z"` adds the wire and both
endpoints. -/
theorem c6_witness :
    (add_connection c6Graph "A" "A" = c6Graph) ∧
    (("A", "Z") ∈ (add_connection c6Graph "A" "Z").edges ∧
      "A" ∈ (add_connection c6Graph "A" "Z").nodes ∧
      "Z" ∈ (add_connection c6Graph "A" "Z").nodes) :=
  ⟨(c6_add_connection_behavior c6Graph "A" "A").1 rfl,
   (c6_add_connection_behavior c6Graph "A" "Z").2 (by decide)⟩

def c6CexGraph : Graph := ⟨["A", "B"], [("A", "B")]⟩

/-- C6 counterexample: a self-loop attempt returns the unchanged graph
without raising any error, and a wire whose endpoint `"Q"` is unknown is
added (together with the endpoint) instead of being rejected. -/
theorem c6_counterexample :
    add_connection c6CexGraph "A" "A" = c6CexGraph ∧
    (add_connection ⟨["A"], []⟩ "A" "Q").edges = [("A", "Q")] := by
  exact ⟨rfl, rfl⟩

/-! ## Predecessors and the yielded order -/

theorem mem_predecessors (g : Graph) (p n : String) :
    p ∈ predecessors g n ↔ (p, n) ∈ g.edges := by
  unfold predecessors
  simp only [List.mem_map, List.mem_filter, beq_iff_eq]
  constructor
  · rintro ⟨⟨a, b⟩, ⟨hmem, hb⟩, ha⟩
    dsimp only at hb ha
    subst hb; subst ha
    exact hmem
  · intro h
    exact ⟨(p, n), ⟨h, rfl⟩, rfl⟩

theorem topological_sort_subset (g : Graph) :
    ∀ x ∈ (topological_sort g).1, x ∈ g.nodes := by
  intro x hx
  have hp := kahnAux_perm g.edges g.nodes.length g.nodes
  exact hp.subset (List.mem_append.mpr (Or.inl hx))

theorem topological_sort_nodup (g : Graph) (h : g.nodes.Nodup) :
    (topological_sort g).1.Nodup := by
  have hp := kahnAux_perm g.edges g.nodes.length g.nodes
  exact (hp.nodup_iff.mpr h).of_append_left

theorem kahnAux_succ_some (edges : List (String × String)) (fuel : Nat)
    (rem : List String) (x : String)
    (hfind : rem.find?
      (fun n => !(edges.any (fun e => e.2 == n && rem.contains e.1))) = some x) :
    kahnAux edges (fuel + 1) rem =
      (x :: (kahnAux edges fuel (rem.erase x)).1, (kahnAux edges fuel (rem.erase x)).2) := by
  conv_lhs => rw [kahnAux]
  rw [hfind]

theorem kahnAux_succ_none (edges : List (String × String)) (fuel : Nat)
    (rem : List String)
    (hfind : rem.find?
      (fun n => !(edges.any (fun e => e.2 == n && rem.contains e.1))) = none) :
    kahnAux edges (fuel + 1) rem = ([], rem) := by
  conv_lhs => rw [kahnAux]
  rw [hfind]

/-- In the yielded order, every in-graph predecessor of a yielded node is
yielded strictly earlier. -/
theorem kahnAux_preds_before (edges : List (String × String)) :
    ∀ (fuel : Nat) (rem : List String) (l1 : List String) (n : String) (l2 : List String),
      (kahnAux edges fuel rem).1 = l1 ++ n :: l2 →
      ∀ p, (p, n) ∈ edges → p ∈ rem → p ∈ l1 := by
  intro fuel
  induction fuel with
  | zero =>
    intro rem l1 n l2 h p hp hpr
    rw [show (kahnAux edges 0 rem).1 = [] from rfl] at h
    simp at h
  | succ fuel ih =>
    intro rem l1 n l2 h p hp hpr
    cases hfind : rem.find?
        (fun n => !(edges.any (fun e => e.2 == n && rem.contains e.1))) with
    | none =>
      have h1 : (kahnAux edges (fuel + 1) rem).1 = [] := by
        rw [kahnAux_succ_none edges fuel rem hfind]
      rw [h1] at h
      simp at h
    | some x =>
      have h1 : (kahnAux edges (fuel + 1) rem).1 =
          x :: (kahnAux edges fuel (rem.erase x)).1 := by
        rw [kahnAux_succ_some edges fuel rem x hfind]
      rw [h1] at h
      cases l1 with
      | nil =>
        simp only [List.nil_append, List.cons.injEq] at h
        obtain ⟨hxn, -⟩ := h
        subst hxn
        exfalso
        have hready := List.find?_some hfind
        simp only [Bool.not_eq_true'] at hready
        rw [List.any_eq_false] at hready
        have hc := hready (p, x) hp
        simp at hc
        exact hc hpr
      | cons y l1' =>
        simp only [List.cons_append, List.cons.injEq] at h
        obtain ⟨hxy, h2⟩ := h
        by_cases hpx : p = x
        · subst hpx; subst hxy
          exact List.mem_cons_self p l1'
        · have hpe : p ∈ rem.erase x := (List.mem_erase_of_ne hpx).mpr hpr
          exact List.mem_cons_of_mem y (ih (rem.erase x) l1' n l2 h2 p hp hpe)

theorem topological_sort_preds_before (g : Graph)
    (l1 : List String) (n : String) (l2 : List String)
    (h : (topological_sort g).1 = l1 ++ n :: l2) (p : String)
    (hp : (p, n) ∈ g.edges) (hpn : p ∈ g.nodes) : p ∈ l1 :=
  kahnAux_preds_before g.edges g.nodes.length g.nodes l1 n l2 h p hp hpn

/-! ## Cycles block Kahn's algorithm -/

/-- Any set of nodes each of which has a predecessor inside the set is
never yielded: it survives into the leftover. -/
theorem kahnAux_blocked (edges : List (String × String)) (P : String → Prop)
    (hP : ∀ m, P m → ∃ p, P p ∧ (p, m) ∈ edges) :
    ∀ (fuel : Nat) (rem : List String),
      (∀ m, P m → m ∈ rem) → ∀ m, P m → m ∈ (kahnAux edges fuel rem).2 := by
  intro fuel
  induction fuel with
  | zero => intro rem hsub m hm; exact hsub m hm
  | succ fuel ih =>
    intro rem hsub m hm
    cases hfind : rem.find?
        (fun n => !(edges.any (fun e => e.2 == n && rem.contains e.1))) with
    | none =>
      have h1 : (kahnAux edges (fuel + 1) rem).2 = rem := by
        rw [kahnAux_succ_none edges fuel rem hfind]
      rw [h1]
      exact hsub m hm
    | some x =>
      have h1 : (kahnAux edges (fuel + 1) rem).2 =
          (kahnAux edges fuel (rem.erase x)).2 := by
        rw [kahnAux_succ_some edges fuel rem x hfind]
      rw [h1]
      have hready := List.find?_some hfind
      simp only [Bool.not_eq_true'] at hready
      rw [List.any_eq_false] at hready
      have hPx : ¬ P x := by
        intro hPx
        obtain ⟨p, hPp, hpe⟩ := hP x hPx
        have hc := hready (p, x) hpe
        simp at hc
        exact hc (hsub p hPp)
      have hsub' : ∀ q, P q → q ∈ rem.erase x := by
        intro q hq
        have hqx : q ≠ x := fun he => hPx (he ▸ hq)
        exact (List.mem_erase_of_ne hqx).mpr (hsub q hq)
      exact ih (rem.erase x) hsub' m hm

/-- If every node of a nonempty set has a predecessor inside the set, the
set contains a cycle (follow predecessors and apply the pigeonhole
principle). -/
theorem cycle_of_all_blocked (edges : List (String × String)) (rem : List String)
    (hne : rem ≠ [])
    (h : ∀ n ∈ rem, ∃ p, (p, n) ∈ edges ∧ p ∈ rem) :
    ∃ n, Relation.TransGen (fun a b => (a, b) ∈ edges ∧ a ∈ rem ∧ b ∈ rem) n n := by
  classical
  have hT : ∀ (x : {y // y ∈ rem}), ∃ (p : {y // y ∈ rem}), (p.val, x.val) ∈ edges := by
    intro x
    obtain ⟨p, hp1, hp2⟩ := h x x.2
    exact ⟨⟨p, hp2⟩, hp1⟩
  choose f hf using hT
  have hstep : ∀ k : Nat,
      ((f^[k + 1] ⟨rem.head hne, List.head_mem hne⟩).val,
        (f^[k] ⟨rem.head hne, List.head_mem hne⟩).val) ∈ edges := by
    intro k
    rw [Function.iterate_succ_apply' f k]
    exact hf _
  have hchain : ∀ (d i : Nat),
      Relation.TransGen (fun a b => (a, b) ∈ edges ∧ a ∈ rem ∧ b ∈ rem)
        (f^[i + d + 1] ⟨rem.head hne, List.head_mem hne⟩).val
        (f^[i] ⟨rem.head hne, List.head_mem hne⟩).val := by
    intro d
    induction d with
    | zero =>
      intro i
      exact Relation.TransGen.single ⟨hstep i, (f^[i + 1] _).2, (f^[i] _).2⟩
    | succ d ih =>
      intro i
      have h1 : Relation.TransGen (fun a b => (a, b) ∈ edges ∧ a ∈ rem ∧ b ∈ rem)
          (f^[i + d + 2] ⟨rem.head hne, List.head_mem hne⟩).val
          (f^[i + d + 1] ⟨rem.head hne, List.head_mem hne⟩).val :=
        Relation.TransGen.single ⟨hstep (i + d + 1), (f^[i + d + 2] _).2, (f^[i + d + 1] _).2⟩
      have he : i + (d + 1) + 1 = i + d + 2 := by omega
      rw [he]
      exact h1.trans (ih i)
  have maps : ∀ k ∈ Finset.range (rem.length + 1),
      (f^[k] ⟨rem.head hne, List.head_mem hne⟩).val ∈ rem.toFinset :=
    fun k _ => List.mem_toFinset.mpr (f^[k] _).2
  have hcard : rem.toFinset.card < (Finset.range (rem.length + 1)).card := by
    rw [Finset.card_range]
    exact Nat.lt_succ_of_le (List.toFinset_card_le rem)
  obtain ⟨i, hi, j, hj, hij, heq⟩ :=
    Finset.exists_ne_map_eq_of_card_lt_of_maps_to hcard maps
  have key : ∀ a b : Nat, a < b →
      (f^[a] ⟨rem.head hne, List.head_mem hne⟩).val =
        (f^[b] ⟨rem.head hne, List.head_mem hne⟩).val →
      ∃ n, Relation.TransGen (fun a b => (a, b) ∈ edges ∧ a ∈ rem ∧ b ∈ rem) n n := by
    intro a b hab he
    refine ⟨(f^[b] ⟨rem.head hne, List.head_mem hne⟩).val, ?_⟩
    have h1 := hchain (b - a - 1) a
    rw [show a + (b - a - 1) + 1 = b by omega] at h1
    rw [he] at h1
    exact h1
  rcases Nat.lt_or_ge i j with hlt | hge
  · exact key i j hlt heq
  · exact key j i (lt_of_le_of_ne hge (Ne.symm hij)) heq.symm

/-- A nonempty leftover of Kahn's algorithm contains a cycle. -/
theorem kahnAux_leftover_cycle (edges : List (String × String)) :
    ∀ (fuel : Nat) (rem : List String), rem.length ≤ fuel →
      (kahnAux edges fuel rem).2 ≠ [] →
      ∃ n, Relation.TransGen
        (fun a b => (a, b) ∈ edges ∧
          a ∈ (kahnAux edges fuel rem).2 ∧ b ∈ (kahnAux edges fuel rem).2) n n := by
  intro fuel
  induction fuel with
  | zero =>
    intro rem hlen hne
    have hrem : rem = [] := List.length_eq_zero.mp (Nat.le_zero.mp hlen)
    exact absurd (by rw [show (kahnAux edges 0 rem).2 = rem from rfl, hrem]) hne
  | succ fuel ih =>
    intro rem hlen hne
    cases hfind : rem.find?
        (fun n => !(edges.any (fun e => e.2 == n && rem.contains e.1))) with
    | none =>
      have h1 : (kahnAux edges (fuel + 1) rem).2 = rem := by
        rw [kahnAux_succ_none edges fuel rem hfind]
      rw [h1] at hne ⊢
      apply cycle_of_all_blocked edges rem hne
      intro n hn
      have hnp := List.find?_eq_none.mp hfind n hn
      simp only [Bool.not_eq_true] at hnp
      have hany : (edges.any fun e => e.2 == n && rem.contains e.1) = true := by
        cases hb : (edges.any fun e => e.2 == n && rem.contains e.1)
        · rw [hb] at hnp; exact absurd hnp (by simp)
        · rfl
      rw [List.any_eq_true] at hany
      obtain ⟨e, he, hee⟩ := hany
      obtain ⟨a, b⟩ := e
      simp only [Bool.and_eq_true, beq_iff_eq] at hee
      obtain ⟨hb, ha⟩ := hee
      subst hb
      exact ⟨a, he, List.mem_of_elem_eq_true ha⟩
    | some x =>
      have hx : x ∈ rem := List.mem_of_find?_eq_some hfind
      have h1 : (kahnAux edges (fuel + 1) rem).2 =
          (kahnAux edges fuel (rem.erase x)).2 := by
        rw [kahnAux_succ_some edges fuel rem x hfind]
      rw [h1] at hne ⊢
      apply ih (rem.erase x) ?_ hne
      rw [List.length_erase_of_mem hx]
      have hpos : 0 < rem.length := List.length_pos_of_mem hx
      omega

/-- On an acyclic graph the generator yields every node. -/
theorem topological_sort_complete (g : Graph) (hac : Acyclic g) :
    (topological_sort g).2 = [] := by
  by_contra hne
  obtain ⟨n, hn⟩ := kahnAux_leftover_cycle g.edges g.nodes.length g.nodes le_rfl hne
  exact hac ⟨n, Relation.TransGen.mono (fun a b hab => hab.1) hn⟩

/-- A cycle among non-`INPUT` nodes blocks its nodes: the generator has a
nonempty leftover and therefore raises the cycle error. -/
theorem topological_sort_leftover_ne_nil (g : Graph) (kinds : List (String × Kind))
    (hc : HasNonInputCycle g kinds) : (topological_sort g).2 ≠ [] := by
  obtain ⟨n, hn⟩ := hc
  have hP : ∀ m, Relation.TransGen (wireCycleRel g kinds) m m →
      ∃ p, Relation.TransGen (wireCycleRel g kinds) p p ∧ (p, m) ∈ g.edges := by
    intro m hm
    obtain ⟨p, hmp, hpm⟩ := Relation.TransGen.tail'_iff.mp hm
    exact ⟨p, Relation.TransGen.trans_left (Relation.TransGen.single hpm) hmp, hpm.1⟩
  have hsub : ∀ m, Relation.TransGen (wireCycleRel g kinds) m m → m ∈ g.nodes := by
    intro m hm
    obtain ⟨b, hmb, -⟩ := Relation.TransGen.head'_iff.mp hm
    exact hmb.2.1
  exact List.ne_nil_of_mem
    (kahnAux_blocked g.edges _ hP g.nodes.length g.nodes hsub n hn)

/-! ## Values produced by the gates stay bits -/

theorem AND_le_one (a b : Nat) (hb : b ≤ 1) : AND a b ≤ 1 := by
  unfold AND; split <;> omega

theorem OR_le_one (a b : Nat) (ha : a ≤ 1) (hb : b ≤ 1) : OR a b ≤ 1 := by
  unfold OR; split <;> omega

theorem XOR_le_one (a b : Nat) (ha : a ≤ 1) (hb : b ≤ 1) : XOR a b ≤ 1 := by
  rcases Nat.le_one_iff_eq_zero_or_eq_one.mp ha with rfl | rfl <;>
    rcases Nat.le_one_iff_eq_zero_or_eq_one.mp hb with rfl | rfl <;> decide

theorem NAND_le_one (a b : Nat) : NAND a b ≤ 1 := by
  unfold NAND
  by_cases h : (if a = 0 then 0 else b) = 0
  · rw [if_pos h]
  · rw [if_neg h]; omega

theorem NOR_le_one (a b : Nat) : NOR a b ≤ 1 := by
  unfold NOR
  by_cases h : (if a = 0 then b else a) = 0
  · rw [if_pos h]
  · rw [if_neg h]; omega

theorem XNOR_le_one (a b : Nat) : XNOR a b ≤ 1 := by
  unfold XNOR; split <;> omega

theorem NOT_le_one (a : Nat) : NOT a ≤ 1 := by
  unfold NOT; split <;> omega

/-! ## The remaining loop-body branches -/

/-- The unary-`NOT` branch of the loop body. -/
theorem step_not1 (g : Graph) (kinds : List (String × Kind))
    (values : List (String × Nat)) (node : String) (a : Nat)
    (hnone : lookup values node = none)
    (hkind : lookup kinds node = some Kind.NOT)
    (hlen : (predecessors g node).length = 1)
    (hval : lookup values ((predecessors g node).headD "") = some a) :
    step g kinds values node = .ok (setv values node (NOT a)) := by
  unfold step
  rw [hnone, hkind]
  simp only [Option.isSome_none, Bool.false_eq_true, if_false]
  rw [if_pos]
  · rw [hval]
  · exact ⟨trivial, hlen⟩

/-- The two-predecessor branch of the loop body, for a kind whose entry
in the gate dictionary is a binary function. -/
theorem step_binary (g : Graph) (kinds : List (String × Kind))
    (values : List (String × Nat)) (node : String) (k : Kind) (f : Nat → Nat → Nat)
    (a b : Nat)
    (hnone : lookup values node = none)
    (hkind : lookup kinds node = some k)
    (hnot1 : ¬(k = Kind.NOT ∧ (predecessors g node).length = 1))
    (hlen : (predecessors g node).length = 2)
    (hgf : gate_functions k = some (.binary f))
    (ha : lookup values ((predecessors g node).headD "") = some a)
    (hb : lookup values ((predecessors g node).getD 1 "") = some b) :
    step g kinds values node = .ok (setv values node (f a b)) := by
  unfold step
  rw [hnone, hkind]
  simp only [Option.isSome_none, Bool.false_eq_true, if_false]
  rw [if_neg hnot1, if_pos hlen, ha, hb, hgf]

/-- The node kinds the Interactive Logic Circuit Simulator's UI can
create (`gate_functions` keys plus `"Input"`). -/
def appKinds : List Kind :=
  [.INPUT, .AND, .OR, .XOR, .NAND, .NOR, .XNOR, .NOT]

/-- Main loop invariant: over a well-formed graph (edges between known
nodes, every node carrying one of the UI's kinds, inputs covering the
`INPUT` nodes with bit values, and no `NOT` node with exactly two wires),
the fold over the yielded order succeeds, keeps every value a bit, and
binds exactly the yielded non-input nodes on top of the start dictionary. -/
theorem foldlM_step_ok (g : Graph) (kinds : List (String × Kind))
    (inputs : List (String × Nat))
    (hedge : ∀ e ∈ g.edges, e.1 ∈ g.nodes ∧ e.2 ∈ g.nodes)
    (hkinds : ∀ n ∈ g.nodes, ∃ k, lookup kinds n = some k ∧ k ∈ appKinds)
    (hinp : ∀ n ∈ g.nodes, lookup kinds n = some Kind.INPUT →
      (lookup inputs n).isSome = true)
    (hnot : ∀ n ∈ g.nodes, lookup kinds n = some Kind.NOT →
      (predecessors g n).length ≠ 2)
    (hnd : (topological_sort g).1.Nodup) :
    ∀ (rest done : List String) (acc : List (String × Nat)),
      (topological_sort g).1 = done ++ rest →
      (∀ n, (lookup acc n).isSome = true ↔
        ((lookup inputs n).isSome = true ∨ n ∈ done)) →
      (∀ n v, lookup acc n = some v → v ≤ 1) →
      ∃ m, rest.foldlM (step g kinds) acc = .ok m ∧
        (∀ n v, lookup m n = some v → v ≤ 1) ∧
        List.Perm (m.map Prod.fst)
          ((rest.filter (fun n => (lookup inputs n).isNone)) ++ acc.map Prod.fst) := by
  intro rest
  induction rest with
  | nil =>
    intro done acc hsplit hdom hval
    exact ⟨acc, rfl, hval, by simp⟩
  | cons x rest ih =>
    intro done acc hsplit hdom hval
    have hxord : x ∈ (topological_sort g).1 := by rw [hsplit]; simp
    have hxnode : x ∈ g.nodes := topological_sort_subset g x hxord
    have hnd' : (done ++ x :: rest).Nodup := hsplit ▸ hnd
    have hxdone : x ∉ done := fun hx =>
      (List.disjoint_of_nodup_append hnd') hx (List.mem_cons_self x rest)
    have hsplit' : (topological_sort g).1 = (done ++ [x]) ++ rest := by
      rw [hsplit]; simp
    by_cases hskip : (lookup acc x).isSome = true
    · have hstep : step g kinds acc x = .ok acc := by
        unfold step; rw [if_pos hskip]
      have hxinp : (lookup inputs x).isSome = true := by
        rcases (hdom x).mp hskip with h | h
        · exact h
        · exact absurd h hxdone
      have hdom' : ∀ n, (lookup acc n).isSome = true ↔
          ((lookup inputs n).isSome = true ∨ n ∈ done ++ [x]) := by
        intro n
        rw [hdom n]
        constructor
        · rintro (h | h)
          · exact Or.inl h
          · exact Or.inr (List.mem_append.mpr (Or.inl h))
        · rintro (h | h)
          · exact Or.inl h
          · rcases List.mem_append.mp h with h | h
            · exact Or.inr h
            · have hnx : n = x := by simpa using h
              subst hnx
              exact Or.inl hxinp
      obtain ⟨m, hm, hv, hperm⟩ := ih (done ++ [x]) acc hsplit' hdom' hval
      refine ⟨m, ?_, hv, ?_⟩
      · rw [List.foldlM_cons, hstep]
        exact hm
      · have hfx : (lookup inputs x).isNone = false := by
          cases hli : lookup inputs x
          · rw [hli] at hxinp; simp at hxinp
          · rfl
        rw [List.filter_cons, if_neg (by simp [hfx])]
        exact hperm
    · have hnone : lookup acc x = none := by
        cases hla : lookup acc x
        · rfl
        · rw [hla] at hskip; simp at hskip
      have hxinp : (lookup inputs x).isSome = false := by
        cases hin : (lookup inputs x).isSome
        · rfl
        · exact absurd ((hdom x).mpr (Or.inl hin)) hskip
      obtain ⟨k, hk, hkmem⟩ := hkinds x hxnode
      have hpredval : ∀ p ∈ predecessors g x, ∃ v, lookup acc p = some v ∧ v ≤ 1 := by
        intro p hp
        have hpe : (p, x) ∈ g.edges := (mem_predecessors g p x).mp hp
        have hpn : p ∈ g.nodes := (hedge _ hpe).1
        have hpdone : p ∈ done :=
          topological_sort_preds_before g done x rest hsplit p hpe hpn
        have hps := (hdom p).mpr (Or.inr hpdone)
        cases hlp : lookup acc p with
        | none => rw [hlp] at hps; simp at hps
        | some v => exact ⟨v, rfl, hval p v hlp⟩
      have hkni : k ≠ Kind.INPUT := by
        intro he; subst he
        have h1 := hinp x hxnode hk
        rw [h1] at hxinp
        exact Bool.noConfusion hxinp
      have hstepex : ∃ w, w ≤ 1 ∧ step g kinds acc x = .ok (setv acc x w) := by
        by_cases hlen2 : (predecessors g x).length = 2
        · obtain ⟨p, q, hpq⟩ := List.length_eq_two.mp hlen2
          obtain ⟨a, hpa, hba⟩ := hpredval p (by rw [hpq]; exact List.mem_cons_self p [q])
          obtain ⟨b, hqb, hbb⟩ := hpredval q (by rw [hpq]; simp)
          have hha : lookup acc ((predecessors g x).headD "") = some a := by
            rw [hpq]; exact hpa
          have hhb : lookup acc ((predecessors g x).getD 1 "") = some b := by
            rw [hpq]; exact hqb
          simp only [appKinds, List.mem_cons, List.not_mem_nil, or_false] at hkmem
          rcases hkmem with rfl | rfl | rfl | rfl | rfl | rfl | rfl | rfl
          · exact absurd rfl hkni
          · exact ⟨AND a b, AND_le_one a b hbb,
              step_binary g kinds acc x Kind.AND AND a b hnone hk
                (fun hc => Kind.noConfusion hc.1) hlen2 rfl hha hhb⟩
          · exact ⟨OR a b, OR_le_one a b hba hbb,
              step_binary g kinds acc x Kind.OR OR a b hnone hk
                (fun hc => Kind.noConfusion hc.1) hlen2 rfl hha hhb⟩
          · exact ⟨XOR a b, XOR_le_one a b hba hbb,
              step_binary g kinds acc x Kind.XOR XOR a b hnone hk
                (fun hc => Kind.noConfusion hc.1) hlen2 rfl hha hhb⟩
          · exact ⟨NAND a b, NAND_le_one a b,
              step_binary g kinds acc x Kind.NAND NAND a b hnone hk
                (fun hc => Kind.noConfusion hc.1) hlen2 rfl hha hhb⟩
          · exact ⟨NOR a b, NOR_le_one a b,
              step_binary g kinds acc x Kind.NOR NOR a b hnone hk
                (fun hc => Kind.noConfusion hc.1) hlen2 rfl hha hhb⟩
          · exact ⟨XNOR a b, XNOR_le_one a b,
              step_binary g kinds acc x Kind.XNOR XNOR a b hnone hk
                (fun hc => Kind.noConfusion hc.1) hlen2 rfl hha hhb⟩
          · exact absurd hlen2 (hnot x hxnode hk)
        · by_cases hlen1 : k = Kind.NOT ∧ (predecessors g x).length = 1
          · obtain ⟨hkN, hl1⟩ := hlen1
            subst hkN
            obtain ⟨p, hp⟩ := List.length_eq_one.mp hl1
            obtain ⟨a, hpa, hba⟩ := hpredval p (by rw [hp]; exact List.mem_cons_self p [])
            refine ⟨NOT a, NOT_le_one a, step_not1 g kinds acc x a hnone hk hl1 ?_⟩
            rw [hp]; exact hpa
          · exact ⟨0, Nat.zero_le 1, step_else g kinds acc x k hnone hk hlen1 hlen2⟩
      obtain ⟨w, hw, hstep⟩ := hstepex
      have hdom' : ∀ n, (lookup (setv acc x w) n).isSome = true ↔
          ((lookup inputs n).isSome = true ∨ n ∈ done ++ [x]) := by
        intro n
        rw [lookup_setv]
        by_cases hnx : n = x
        · subst hnx
          rw [if_pos rfl]
          simp
        · rw [if_neg hnx, hdom n]
          simp [List.mem_append, hnx]
      have hval' : ∀ n v, lookup (setv acc x w) n = some v → v ≤ 1 := by
        intro n v hnv
        rw [lookup_setv] at hnv
        by_cases hnx : n = x
        · rw [if_pos hnx] at hnv
          cases hnv
          exact hw
        · rw [if_neg hnx] at hnv
          exact hval n v hnv
      obtain ⟨m, hm, hv, hperm⟩ := ih (done ++ [x]) (setv acc x w) hsplit' hdom' hval'
      refine ⟨m, ?_, hv, ?_⟩
      · rw [List.foldlM_cons, hstep]
        exact hm
      · have hfx : (lookup inputs x).isNone = true := by
          cases hli : lookup inputs x
          · rfl
          · rw [hli] at hxinp; simp at hxinp
        rw [List.filter_cons, if_pos (by simp [hfx])]
        have hkeys : (setv acc x w).map Prod.fst = x :: acc.map Prod.fst := rfl
        rw [hkeys] at hperm
        exact hperm.trans List.perm_middle

theorem mem_keys_iff {α : Type} (m : List (String × α)) (n : String) :
    n ∈ m.map Prod.fst ↔ (lookup m n).isSome = true := by
  unfold lookup
  constructor
  · intro h
    obtain ⟨x, hx, he⟩ := List.mem_map.mp h
    cases hf : m.find? (fun p => p.1 == n) with
    | none =>
      exfalso
      have hall := List.find?_eq_none.mp hf x hx
      simp [he] at hall
    | some y => rfl
  · intro h
    cases hf : m.find? (fun p => p.1 == n) with
    | none => rw [hf] at h; simp at h
    | some x =>
      have hpx := List.find?_some hf
      have hmem := List.mem_of_find?_eq_some hf
      simp only [beq_iff_eq] at hpx
      exact List.mem_map.mpr ⟨x, hmem, hpx⟩

theorem compute_output_eq_of_fold_ok (g : Graph) (kinds : List (String × Kind))
    (inputs m : List (String × Nat))
    (hm : (topological_sort g).1.foldlM (step g kinds) inputs = .ok m) :
    compute_output g kinds inputs =
      if (topological_sort g).2.isEmpty then .ok m else .error .cycleDetected := by
  unfold compute_output
  rw [hm]

/-- C2 (amended): on a well-formed graph (edges between known nodes, the
UI's kinds everywhere, `INPUT` nodes covered by bit-valued inputs, and no
`NOT` node with exactly two incoming wires, so that no per-node step
raises first), a cycle among non-`INPUT` nodes makes `compute_output`
raise the cycle-detection error and return no mapping at all.  The
per-node evaluation of the nodes not blocked behind the cycle does run
first — the lazy topological-sort generator only raises on exhaustion —
so a graph that also contains a `NOT` node with two incoming wires raises
`TypeError` instead (see the counterexample). -/
theorem c2_cycle_detected (g : Graph) (kinds : List (String × Kind))
    (inputs : List (String × Nat))
    (hedge : ∀ e ∈ g.edges, e.1 ∈ g.nodes ∧ e.2 ∈ g.nodes)
    (hkinds : ∀ n ∈ g.nodes, ∃ k, lookup kinds n = some k ∧ k ∈ appKinds)
    (hinp : ∀ n ∈ g.nodes, lookup kinds n = some Kind.INPUT →
      (lookup inputs n).isSome = true)
    (hnot : ∀ n ∈ g.nodes, lookup kinds n = some Kind.NOT →
      (predecessors g n).length ≠ 2)
    (hnodes : g.nodes.Nodup)
    (hvals : ∀ n v, lookup inputs n = some v → v ≤ 1)
    (hcyc : HasNonInputCycle g kinds) :
    compute_output g kinds inputs = .error .cycleDetected := by
  have hnd := topological_sort_nodup g hnodes
  obtain ⟨m, hm, -, -⟩ := foldlM_step_ok g kinds inputs hedge hkinds hinp hnot hnd
    (topological_sort g).1 [] inputs (by simp) (fun n => by simp) hvals
  have hlf := topological_sort_leftover_ne_nil g kinds hcyc
  rw [compute_output_eq_of_fold_ok g kinds inputs m hm]
  have hie : (topological_sort g).2.isEmpty = false := by
    cases hl : (topological_sort g).2
    · exact absurd hl hlf
    · rfl
  rw [hie]
  rfl

def c2Graph : Graph := ⟨["A", "B"], [("A", "B"), ("B", "A")]⟩

def c2Kinds : List (String × Kind) := [("A", .AND), ("B", .AND)]

/-- C2 witness: two `AND` nodes wired into each other form a non-input
cycle and evaluation raises the cycle error. -/
theorem c2_witness :
    HasNonInputCycle c2Graph c2Kinds ∧
    compute_output c2Graph c2Kinds [] = .error .cycleDetected := by
  have h1 : wireCycleRel c2Graph c2Kinds "A" "B" :=
    ⟨by decide, by decide, by decide, by decide, by decide⟩
  have h2 : wireCycleRel c2Graph c2Kinds "B" "A" :=
    ⟨by decide, by decide, by decide, by decide, by decide⟩
  have hcyc : HasNonInputCycle c2Graph c2Kinds :=
    ⟨"A", Relation.TransGen.head h1 (Relation.TransGen.single h2)⟩
  refine ⟨hcyc, ?_⟩
  apply c2_cycle_detected c2Graph c2Kinds []
  · intro e he
    simp only [c2Graph, List.mem_cons, List.not_mem_nil, or_false] at he
    rcases he with rfl | rfl <;> exact ⟨by decide, by decide⟩
  · intro n hn
    simp only [c2Graph, List.mem_cons, List.not_mem_nil, or_false] at hn
    rcases hn with rfl | rfl
    · exact ⟨Kind.AND, rfl, by decide⟩
    · exact ⟨Kind.AND, rfl, by decide⟩
  · intro n hn h
    simp only [c2Graph, List.mem_cons, List.not_mem_nil, or_false] at hn
    rcases hn with rfl | rfl <;> exact absurd h (by decide)
  · intro n hn h
    simp only [c2Graph, List.mem_cons, List.not_mem_nil, or_false] at hn
    rcases hn with rfl | rfl <;> exact absurd h (by decide)
  · decide
  · intro n v h
    simp [lookup] at h
  · exact hcyc

def c2CexGraph : Graph :=
  ⟨["A", "B", "X", "C", "D"], [("A", "X"), ("B", "X"), ("C", "D"), ("D", "C")]⟩

def c2CexKinds : List (String × Kind) :=
  [("A", .INPUT), ("B", .INPUT), ("X", .NOT), ("C", .AND), ("D", .AND)]

/-- C2 counterexample: a graph with a cycle among non-`INPUT` nodes
(`C` and `D`) whose acyclic part contains a `NOT` node with two incoming
wires raises `TypeError`, not the cycle-detection error — the generator
yields the unblocked nodes first and the loop body fails on `X` before
the cycle error would be raised. -/
theorem c2_counterexample :
    HasNonInputCycle c2CexGraph c2CexKinds ∧
    compute_output c2CexGraph c2CexKinds [("A", 1), ("B", 1)] = .error .typeError := by
  have h1 : wireCycleRel c2CexGraph c2CexKinds "C" "D" :=
    ⟨by decide, by decide, by decide, by decide, by decide⟩
  have h2 : wireCycleRel c2CexGraph c2CexKinds "D" "C" :=
    ⟨by decide, by decide, by decide, by decide, by decide⟩
  exact ⟨⟨"C", Relation.TransGen.head h1 (Relation.TransGen.single h2)⟩, rfl⟩

/-- A relation with a single possible edge shape `s → t`, `s ≠ t`, has no
cycle. -/
theorem transGen_irrefl_of_unique_edge {r : String → String → Prop} (s t : String)
    (h : ∀ a b, r a b → a = s ∧ b = t) (hst : s ≠ t) :
    ¬ ∃ n, Relation.TransGen r n n := by
  rintro ⟨n, hn⟩
  obtain ⟨b, hnb, -⟩ := Relation.TransGen.head'_iff.mp hn
  obtain ⟨c, -, hcn⟩ := Relation.TransGen.tail'_iff.mp hn
  obtain ⟨h1, -⟩ := h n b hnb
  obtain ⟨-, h2⟩ := h c n hcn
  exact hst (h1.symm.trans h2)

/-- A relation with no two composable steps and no self-step has no
cycle. -/
theorem transGen_irrefl_of_no_chain {r : String → String → Prop}
    (h : ∀ a b, r a b → ∀ c, ¬ r b c) (hirr : ∀ a, ¬ r a a) :
    ¬ ∃ n, Relation.TransGen r n n := by
  rintro ⟨n, hn⟩
  obtain ⟨b, hnb, hbn⟩ := Relation.TransGen.head'_iff.mp hn
  rcases Relation.ReflTransGen.cases_head hbn with heq | ⟨c, hbc, -⟩
  · rw [heq] at hnb
    exact hirr n hnb
  · exact h n b hnb c hbc

/-- C3 (amended): for a well-formed acyclic graph whose nodes all carry
the UI's kinds and none of whose `NOT` nodes has exactly two incoming
wires, and for an input assignment whose domain is exactly the
`INPUT`-kind nodes with values in {0,1}, `compute_output` succeeds and
returns a mapping with exactly one entry per node of the graph, every
value being 0 or 1.  (Without the `NOT` carve-out the evaluation can
raise `TypeError` on an acyclic graph — see the counterexample.) -/
theorem c3_acyclic_evaluates_totally (g : Graph) (kinds : List (String × Kind))
    (inputs : List (String × Nat))
    (hedge : ∀ e ∈ g.edges, e.1 ∈ g.nodes ∧ e.2 ∈ g.nodes)
    (hkinds : ∀ n ∈ g.nodes, ∃ k, lookup kinds n = some k ∧ k ∈ appKinds)
    (hnot : ∀ n ∈ g.nodes, lookup kinds n = some Kind.NOT →
      (predecessors g n).length ≠ 2)
    (hnodes : g.nodes.Nodup)
    (hkeys : (inputs.map Prod.fst).Nodup)
    (hdominp : ∀ n, (lookup inputs n).isSome = true ↔
      (n ∈ g.nodes ∧ lookup kinds n = some Kind.INPUT))
    (hvals : ∀ n v, lookup inputs n = some v → v ≤ 1)
    (hac : Acyclic g) :
    ∃ m, compute_output g kinds inputs = .ok m ∧
      List.Perm (m.map Prod.fst) g.nodes ∧
      (∀ n v, lookup m n = some v → (v = 0 ∨ v = 1)) := by
  have hnd := topological_sort_nodup g hnodes
  have hlf : (topological_sort g).2 = [] := topological_sort_complete g hac
  obtain ⟨m, hm, hv, hperm⟩ := foldlM_step_ok g kinds inputs hedge hkinds
    (fun n hn hk => (hdominp n).mpr ⟨hn, hk⟩) hnot hnd
    (topological_sort g).1 [] inputs (by simp) (fun n => by simp) hvals
  refine ⟨m, ?_, ?_, fun n v hnv => by have := hv n v hnv; omega⟩
  · rw [compute_output_eq_of_fold_ok g kinds inputs m hm, hlf]
    rfl
  · have hordperm := topological_sort_perm g hlf
    have hfil2 : List.Perm
        ((topological_sort g).1.filter (fun n => !((lookup inputs n).isNone)))
        (inputs.map Prod.fst) := by
      rw [List.perm_ext_iff_of_nodup (hnd.filter _) hkeys]
      intro a
      rw [List.mem_filter, mem_keys_iff]
      constructor
      · rintro ⟨-, hsome⟩
        cases hla : lookup inputs a with
        | none => rw [hla] at hsome; simp at hsome
        | some v => rfl
      · intro hsome
        constructor
        · exact hordperm.mem_iff.mpr ((hdominp a).mp hsome).1
        · cases hla : lookup inputs a with
          | none => rw [hla] at hsome; simp at hsome
          | some v => rfl
    have h1 : List.Perm
        ((topological_sort g).1.filter (fun n => (lookup inputs n).isNone) ++ inputs.map Prod.fst)
        ((topological_sort g).1.filter (fun n => (lookup inputs n).isNone) ++
          (topological_sort g).1.filter (fun n => !((lookup inputs n).isNone))) :=
      List.Perm.append_left _ hfil2.symm
    have h2 := List.filter_append_perm
      (fun n => (lookup inputs n).isNone) (topological_sort g).1
    exact hperm.trans (h1.trans (h2.trans hordperm))

def c3Graph : Graph := ⟨["A", "X"], [("A", "X")]⟩

def c3Kinds : List (String × Kind) := [("A", .INPUT), ("X", .NOT)]

def c3Inputs : List (String × Nat) := [("A", 1)]

/-- C3 witness: the acyclic graph `INPUT A → NOT X` with `A = 1`
evaluates totally, with one entry per node and bit values. -/
theorem c3_witness :
    Acyclic c3Graph ∧
    ∃ m, compute_output c3Graph c3Kinds c3Inputs = .ok m ∧
      List.Perm (m.map Prod.fst) c3Graph.nodes ∧
      (∀ n v, lookup m n = some v → (v = 0 ∨ v = 1)) := by
  have hac : Acyclic c3Graph := by
    unfold Acyclic
    apply transGen_irrefl_of_unique_edge "A" "X"
    · intro a b hab
      simp only [c3Graph, List.mem_cons, List.not_mem_nil, or_false,
        Prod.mk.injEq] at hab
      exact hab
    · decide
  refine ⟨hac, ?_⟩
  apply c3_acyclic_evaluates_totally c3Graph c3Kinds c3Inputs
  · intro e he
    simp only [c3Graph, List.mem_cons, List.not_mem_nil, or_false] at he
    subst he
    exact ⟨by decide, by decide⟩
  · intro n hn
    simp only [c3Graph, List.mem_cons, List.not_mem_nil, or_false] at hn
    rcases hn with rfl | rfl
    · exact ⟨Kind.INPUT, rfl, by decide⟩
    · exact ⟨Kind.NOT, rfl, by decide⟩
  · intro n hn h
    simp only [c3Graph, List.mem_cons, List.not_mem_nil, or_false] at hn
    rcases hn with rfl | rfl
    · exact absurd h (by decide)
    · decide
  · decide
  · decide
  · intro n
    by_cases hA : n = "A"
    · subst hA; decide
    · by_cases hX : n = "X"
      · subst hX; decide
      · constructor
        · intro h
          exfalso
          have hm := (mem_keys_iff c3Inputs n).mpr h
          simp only [c3Inputs, List.map_cons, List.map_nil, List.mem_cons,
            List.not_mem_nil, or_false] at hm
          exact hA hm
        · rintro ⟨hmem, -⟩
          simp only [c3Graph, List.mem_cons, List.not_mem_nil, or_false] at hmem
          rcases hmem with rfl | rfl
          · exact absurd rfl hA
          · exact absurd rfl hX
  · intro n v h
    have hmem := (mem_keys_iff c3Inputs n).mpr (by rw [h]; rfl)
    simp only [c3Inputs, List.map_cons, List.map_nil, List.mem_cons,
      List.not_mem_nil, or_false] at hmem
    subst hmem
    rw [show lookup c3Inputs "A" = some 1 from rfl] at h
    cases h
    exact le_rfl
  · exact hac

def c3CexGraph : Graph := ⟨["P", "Q", "Y"], [("P", "Y"), ("Q", "Y")]⟩

def c3CexKinds : List (String × Kind) :=
  [("P", .INPUT), ("Q", .INPUT), ("Y", .NOT)]

/-- C3 counterexample: an acyclic graph with bit-valued inputs for every
`INPUT` node on which evaluation nevertheless raises `TypeError` (a `NOT`
node with two incoming wires), so it returns no mapping at all. -/
theorem c3_counterexample :
    Acyclic c3CexGraph ∧
    compute_output c3CexGraph c3CexKinds [("P", 0), ("Q", 0)] = .error .typeError := by
  constructor
  · unfold Acyclic
    apply transGen_irrefl_of_no_chain
    · intro a b hab c hbc
      simp only [c3CexGraph, List.mem_cons, List.not_mem_nil, or_false,
        Prod.mk.injEq] at hab hbc
      rcases hab with ⟨-, rfl⟩ | ⟨-, rfl⟩ <;>
        rcases hbc with ⟨h', -⟩ | ⟨h', -⟩ <;> exact absurd h' (by decide)
    · intro a ha
      simp only [c3CexGraph, List.mem_cons, List.not_mem_nil, or_false,
        Prod.mk.injEq] at ha
      rcases ha with ⟨h1, h2⟩ | ⟨h1, h2⟩ <;> (subst h1; exact absurd h2 (by decide))
  · rfl

/-! ## The Advanced Circuit Simulator shares the engine only partially -/

/-- The kinds common to both simulators' selection lists for purely
combinational circuits. -/
def sharedKinds : List Kind := [.INPUT, .AND, .OR, .NOT]

/-- A skipped node leaves `compute_circuit`'s state unchanged. -/
theorem circStep_skip (g : Graph) (kinds : List (String × Kind))
    (acc : List (String × Nat)) (seq : List (String × DFlipFlop)) (node : String)
    (h : (lookup acc node).isSome = true) :
    circStep g kinds (acc, seq) node = .ok (acc, seq) := by
  unfold circStep
  rw [if_pos h]

/-- The `AND` branch of `compute_circuit`'s loop body: `int(all(inputs))`. -/
theorem circStep_and (g : Graph) (kinds : List (String × Kind))
    (acc : List (String × Nat)) (seq : List (String × DFlipFlop)) (node : String)
    (ins : List Nat)
    (hnone : lookup acc node = none)
    (hkind : lookup kinds node = some Kind.AND)
    (hins : predValues acc (predecessors g node) = some ins) :
    circStep g kinds (acc, seq) node =
      .ok (setv acc node (if ins.all (fun v => v != 0) then 1 else 0), seq) := by
  unfold circStep
  rw [hnone, hkind]
  simp only [Option.isSome_none, Bool.false_eq_true, if_false]
  rw [if_neg (by decide :
    ¬(Kind.AND = Kind.DFF ∨ Kind.AND = Kind.JKFF ∨ Kind.AND = Kind.COUNTER))]
  rw [hins]
  simp

/-- The `OR` branch of `compute_circuit`'s loop body: `int(any(inputs))`. -/
theorem circStep_or (g : Graph) (kinds : List (String × Kind))
    (acc : List (String × Nat)) (seq : List (String × DFlipFlop)) (node : String)
    (ins : List Nat)
    (hnone : lookup acc node = none)
    (hkind : lookup kinds node = some Kind.OR)
    (hins : predValues acc (predecessors g node) = some ins) :
    circStep g kinds (acc, seq) node =
      .ok (setv acc node (if ins.any (fun v => v != 0) then 1 else 0), seq) := by
  unfold circStep
  rw [hnone, hkind]
  simp only [Option.isSome_none, Bool.false_eq_true, if_false]
  rw [if_neg (by decide :
    ¬(Kind.OR = Kind.DFF ∨ Kind.OR = Kind.JKFF ∨ Kind.OR = Kind.COUNTER))]
  rw [hins]
  simp

/-- The `NOT` branch of `compute_circuit`'s loop body:
`int(not inputs[0])`. -/
theorem circStep_not (g : Graph) (kinds : List (String × Kind))
    (acc : List (String × Nat)) (seq : List (String × DFlipFlop)) (node : String)
    (a : Nat) (rest : List Nat)
    (hnone : lookup acc node = none)
    (hkind : lookup kinds node = some Kind.NOT)
    (hins : predValues acc (predecessors g node) = some (a :: rest)) :
    circStep g kinds (acc, seq) node =
      .ok (setv acc node (if a = 0 then 1 else 0), seq) := by
  unfold circStep
  rw [hnone, hkind]
  simp only [Option.isSome_none, Bool.false_eq_true, if_false]
  rw [if_neg (by decide :
    ¬(Kind.NOT = Kind.DFF ∨ Kind.NOT = Kind.JKFF ∨ Kind.NOT = Kind.COUNTER))]
  rw [hins]
  simp

/-- `int(a and b)` and `int(all([a, b]))` agree on bits. -/
theorem AND_eq_all (a b : Nat) (ha : a ≤ 1) (hb : b ≤ 1) :
    (if ([a, b].all (fun v => v != 0)) then 1 else 0) = AND a b := by
  rcases Nat.le_one_iff_eq_zero_or_eq_one.mp ha with rfl | rfl <;>
    rcases Nat.le_one_iff_eq_zero_or_eq_one.mp hb with rfl | rfl <;> decide

/-- `int(a or b)` and `int(any([a, b]))` agree on bits. -/
theorem OR_eq_any (a b : Nat) (ha : a ≤ 1) (hb : b ≤ 1) :
    (if ([a, b].any (fun v => v != 0)) then 1 else 0) = OR a b := by
  rcases Nat.le_one_iff_eq_zero_or_eq_one.mp ha with rfl | rfl <;>
    rcases Nat.le_one_iff_eq_zero_or_eq_one.mp hb with rfl | rfl <;> decide

/-- Parallel loop invariant: on graphs using only the shared combinational
kinds with exact arities (`AND`/`OR` two wires, `NOT` one) and bit-valued
inputs covering the `INPUT` nodes, the two loop bodies perform identical
updates, so the two folds produce the same dictionary and leave the
sequential state untouched. -/
theorem foldlM_parallel (g : Graph) (kinds : List (String × Kind))
    (inputs : List (String × Nat))
    (hedge : ∀ e ∈ g.edges, e.1 ∈ g.nodes ∧ e.2 ∈ g.nodes)
    (hkinds : ∀ n ∈ g.nodes, ∃ k, lookup kinds n = some k ∧ k ∈ sharedKinds)
    (harity2 : ∀ n ∈ g.nodes,
      (lookup kinds n = some Kind.AND ∨ lookup kinds n = some Kind.OR) →
      (predecessors g n).length = 2)
    (harity1 : ∀ n ∈ g.nodes, lookup kinds n = some Kind.NOT →
      (predecessors g n).length = 1)
    (hinp : ∀ n ∈ g.nodes, lookup kinds n = some Kind.INPUT →
      (lookup inputs n).isSome = true)
    (hnd : (topological_sort g).1.Nodup) :
    ∀ (rest done : List String) (acc : List (String × Nat))
      (seq : List (String × DFlipFlop)),
      (topological_sort g).1 = done ++ rest →
      (∀ n, (lookup acc n).isSome = true ↔
        ((lookup inputs n).isSome = true ∨ n ∈ done)) →
      (∀ n v, lookup acc n = some v → v ≤ 1) →
      ∃ m, rest.foldlM (step g kinds) acc = .ok m ∧
        rest.foldlM (circStep g kinds) (acc, seq) = .ok (m, seq) := by
  intro rest
  induction rest with
  | nil =>
    intro done acc seq hsplit hdom hval
    exact ⟨acc, rfl, rfl⟩
  | cons x rest ih =>
    intro done acc seq hsplit hdom hval
    have hxord : x ∈ (topological_sort g).1 := by rw [hsplit]; simp
    have hxnode : x ∈ g.nodes := topological_sort_subset g x hxord
    have hnd' : (done ++ x :: rest).Nodup := hsplit ▸ hnd
    have hxdone : x ∉ done := fun hx =>
      (List.disjoint_of_nodup_append hnd') hx (List.mem_cons_self x rest)
    have hsplit' : (topological_sort g).1 = (done ++ [x]) ++ rest := by
      rw [hsplit]; simp
    by_cases hskip : (lookup acc x).isSome = true
    · have hstepA : step g kinds acc x = .ok acc := by
        unfold step; rw [if_pos hskip]
      have hstepC := circStep_skip g kinds acc seq x hskip
      have hxinp : (lookup inputs x).isSome = true := by
        rcases (hdom x).mp hskip with h | h
        · exact h
        · exact absurd h hxdone
      have hdom' : ∀ n, (lookup acc n).isSome = true ↔
          ((lookup inputs n).isSome = true ∨ n ∈ done ++ [x]) := by
        intro n
        rw [hdom n]
        constructor
        · rintro (h | h)
          · exact Or.inl h
          · exact Or.inr (List.mem_append.mpr (Or.inl h))
        · rintro (h | h)
          · exact Or.inl h
          · rcases List.mem_append.mp h with h | h
            · exact Or.inr h
            · have hnx : n = x := by simpa using h
              subst hnx
              exact Or.inl hxinp
      obtain ⟨m, hmA, hmC⟩ := ih (done ++ [x]) acc seq hsplit' hdom' hval
      refine ⟨m, ?_, ?_⟩
      · rw [List.foldlM_cons, hstepA]; exact hmA
      · rw [List.foldlM_cons, hstepC]; exact hmC
    · have hnone : lookup acc x = none := by
        cases hla : lookup acc x
        · rfl
        · rw [hla] at hskip; simp at hskip
      obtain ⟨k, hk, hkmem⟩ := hkinds x hxnode
      have hpredval : ∀ p ∈ predecessors g x, ∃ v, lookup acc p = some v ∧ v ≤ 1 := by
        intro p hp
        have hpe : (p, x) ∈ g.edges := (mem_predecessors g p x).mp hp
        have hpn : p ∈ g.nodes := (hedge _ hpe).1
        have hpdone : p ∈ done :=
          topological_sort_preds_before g done x rest hsplit p hpe hpn
        have hps := (hdom p).mpr (Or.inr hpdone)
        cases hlp : lookup acc p with
        | none => rw [hlp] at hps; simp at hps
        | some v => exact ⟨v, rfl, hval p v hlp⟩
      have hstepex : ∃ w, w ≤ 1 ∧ step g kinds acc x = .ok (setv acc x w) ∧
          circStep g kinds (acc, seq) x = .ok (setv acc x w, seq) := by
        simp only [sharedKinds, List.mem_cons, List.not_mem_nil, or_false] at hkmem
        rcases hkmem with rfl | rfl | rfl | rfl
        · exfalso
          have h1 := hinp x hxnode hk
          exact hskip ((hdom x).mpr (Or.inl h1))
        · have hlen2 := harity2 x hxnode (Or.inl hk)
          obtain ⟨p, q, hpq⟩ := List.length_eq_two.mp hlen2
          obtain ⟨a, hpa, hba⟩ := hpredval p (by rw [hpq]; exact List.mem_cons_self p [q])
          obtain ⟨b, hqb, hbb⟩ := hpredval q (by rw [hpq]; simp)
          have hha : lookup acc ((predecessors g x).headD "") = some a := by
            rw [hpq]; exact hpa
          have hhb : lookup acc ((predecessors g x).getD 1 "") = some b := by
            rw [hpq]; exact hqb
          have hins : predValues acc (predecessors g x) = some [a, b] := by
            rw [hpq]
            simp [predValues, hpa, hqb]
          refine ⟨AND a b, AND_le_one a b hbb, ?_, ?_⟩
          · exact step_binary g kinds acc x Kind.AND AND a b hnone hk
              (fun hc => Kind.noConfusion hc.1) hlen2 rfl hha hhb
          · rw [circStep_and g kinds acc seq x [a, b] hnone hk hins]
            rw [AND_eq_all a b hba hbb]
        · have hlen2 := harity2 x hxnode (Or.inr hk)
          obtain ⟨p, q, hpq⟩ := List.length_eq_two.mp hlen2
          obtain ⟨a, hpa, hba⟩ := hpredval p (by rw [hpq]; exact List.mem_cons_self p [q])
          obtain ⟨b, hqb, hbb⟩ := hpredval q (by rw [hpq]; simp)
          have hha : lookup acc ((predecessors g x).headD "") = some a := by
            rw [hpq]; exact hpa
          have hhb : lookup acc ((predecessors g x).getD 1 "") = some b := by
            rw [hpq]; exact hqb
          have hins : predValues acc (predecessors g x) = some [a, b] := by
            rw [hpq]
            simp [predValues, hpa, hqb]
          refine ⟨OR a b, OR_le_one a b hba hbb, ?_, ?_⟩
          · exact step_binary g kinds acc x Kind.OR OR a b hnone hk
              (fun hc => Kind.noConfusion hc.1) hlen2 rfl hha hhb
          · rw [circStep_or g kinds acc seq x [a, b] hnone hk hins]
            rw [OR_eq_any a b hba hbb]
        · have hlen1 := harity1 x hxnode hk
          obtain ⟨p, hp⟩ := List.length_eq_one.mp hlen1
          obtain ⟨a, hpa, hba⟩ := hpredval p (by rw [hp]; exact List.mem_cons_self p [])
          have hha : lookup acc ((predecessors g x).headD "") = some a := by
            rw [hp]; exact hpa
          have hins : predValues acc (predecessors g x) = some [a] := by
            rw [hp]
            simp [predValues, hpa]
          refine ⟨NOT a, NOT_le_one a, ?_, ?_⟩
          · exact step_not1 g kinds acc x a hnone hk hlen1 hha
          · exact circStep_not g kinds acc seq x a [] hnone hk hins
      obtain ⟨w, hw, hstepA, hstepC⟩ := hstepex
      have hdom' : ∀ n, (lookup (setv acc x w) n).isSome = true ↔
          ((lookup inputs n).isSome = true ∨ n ∈ done ++ [x]) := by
        intro n
        rw [lookup_setv]
        by_cases hnx : n = x
        · subst hnx
          rw [if_pos rfl]
          simp
        · rw [if_neg hnx, hdom n]
          simp [List.mem_append, hnx]
      have hval' : ∀ n v, lookup (setv acc x w) n = some v → v ≤ 1 := by
        intro n v hnv
        rw [lookup_setv] at hnv
        by_cases hnx : n = x
        · rw [if_pos hnx] at hnv
          cases hnv
          exact hw
        · rw [if_neg hnx] at hnv
          exact hval n v hnv
      obtain ⟨m, hmA, hmC⟩ := ih (done ++ [x]) (setv acc x w) seq hsplit' hdom' hval'
      refine ⟨m, ?_, ?_⟩
      · rw [List.foldlM_cons, hstepA]; exact hmA
      · rw [List.foldlM_cons, hstepC]; exact hmC

/-- C5 (amended): the two propagation engines agree only on the shared
combinational fragment with exact arities — graphs built from `INPUT`,
`AND`, `OR` and `NOT` where every `AND`/`OR` node has exactly two incoming
wires, every `NOT` node exactly one, and every `INPUT` node a supplied bit
value: there `compute_output` and `compute_circuit` assign the same value
to every node (and agree on the cycle error).  They are not identical in
general: `compute_circuit` has no `XOR` branch (an `XOR` node is left
unassigned) and evaluates `AND`/`OR` via `all`/`any` over however many
operands arrived, so e.g. an `AND` node with one incoming wire carrying 1
evaluates to 0 in one engine and 1 in the other (see the counterexample). -/
theorem c5_engines_agree (g : Graph) (kinds : List (String × Kind))
    (inputs : List (String × Nat)) (seq : List (String × DFlipFlop))
    (hedge : ∀ e ∈ g.edges, e.1 ∈ g.nodes ∧ e.2 ∈ g.nodes)
    (hkinds : ∀ n ∈ g.nodes, ∃ k, lookup kinds n = some k ∧ k ∈ sharedKinds)
    (harity2 : ∀ n ∈ g.nodes,
      (lookup kinds n = some Kind.AND ∨ lookup kinds n = some Kind.OR) →
      (predecessors g n).length = 2)
    (harity1 : ∀ n ∈ g.nodes, lookup kinds n = some Kind.NOT →
      (predecessors g n).length = 1)
    (hinp : ∀ n ∈ g.nodes, lookup kinds n = some Kind.INPUT →
      (lookup inputs n).isSome = true)
    (hnodes : g.nodes.Nodup)
    (hvals : ∀ n v, lookup inputs n = some v → v ≤ 1) :
    compute_output g kinds inputs = (compute_circuit g kinds inputs seq).map Prod.fst := by
  have hnd := topological_sort_nodup g hnodes
  obtain ⟨m, hmA, hmC⟩ := foldlM_parallel g kinds inputs hedge hkinds harity2
    harity1 hinp hnd (topological_sort g).1 [] inputs seq (by simp)
    (fun n => by simp) hvals
  unfold compute_output compute_circuit
  rw [hmA, hmC]
  cases hie : (topological_sort g).2.isEmpty
  · rfl
  · rfl

def c5Graph : Graph := ⟨["A", "B", "X"], [("A", "X"), ("B", "X")]⟩

def c5Kinds : List (String × Kind) := [("A", .INPUT), ("B", .INPUT), ("X", .AND)]

def c5Inputs : List (String × Nat) := [("A", 1), ("B", 0)]

/-- C5 witness: on a two-input `AND` circuit the two engines return the
same mapping. -/
theorem c5_witness :
    compute_output c5Graph c5Kinds c5Inputs =
      (compute_circuit c5Graph c5Kinds c5Inputs []).map Prod.fst ∧
    compute_output c5Graph c5Kinds c5Inputs = .ok [("X", 0), ("A", 1), ("B", 0)] := by
  constructor
  · apply c5_engines_agree c5Graph c5Kinds c5Inputs []
    · intro e he
      simp only [c5Graph, List.mem_cons, List.not_mem_nil, or_false] at he
      rcases he with rfl | rfl <;> exact ⟨by decide, by decide⟩
    · intro n hn
      simp only [c5Graph, List.mem_cons, List.not_mem_nil, or_false] at hn
      rcases hn with rfl | rfl | rfl
      · exact ⟨Kind.INPUT, rfl, by decide⟩
      · exact ⟨Kind.INPUT, rfl, by decide⟩
      · exact ⟨Kind.AND, rfl, by decide⟩
    · intro n hn h
      simp only [c5Graph, List.mem_cons, List.not_mem_nil, or_false] at hn
      rcases hn with rfl | rfl | rfl
      · rcases h with h | h <;> exact absurd h (by decide)
      · rcases h with h | h <;> exact absurd h (by decide)
      · decide
    · intro n hn h
      simp only [c5Graph, List.mem_cons, List.not_mem_nil, or_false] at hn
      rcases hn with rfl | rfl | rfl <;> exact absurd h (by decide)
    · intro n hn h
      simp only [c5Graph, List.mem_cons, List.not_mem_nil, or_false] at hn
      rcases hn with rfl | rfl | rfl
      · decide
      · decide
      · exact absurd h (by decide)
    · decide
    · intro n v h
      have hmem := (mem_keys_iff c5Inputs n).mpr (by rw [h]; rfl)
      simp only [c5Inputs, List.map_cons, List.map_nil, List.mem_cons,
        List.not_mem_nil, or_false] at hmem
      rcases hmem with rfl | rfl
      · rw [show lookup c5Inputs "A" = some 1 from rfl] at h
        cases h
        exact le_rfl
      · rw [show lookup c5Inputs "B" = some 0 from rfl] at h
        cases h
        exact Nat.zero_le 1
  · rfl

def c5CexGraph : Graph := ⟨["A", "X"], [("A", "X")]⟩

def c5CexKinds : List (String × Kind) := [("A", .INPUT), ("X", .AND)]

/-- C5 counterexample: an `AND` node with a single incoming wire carrying
1 evaluates to 0 under `compute_output` but to 1 under `compute_circuit`
— the engines are not identical on graphs built from the shared kinds. -/
theorem c5_counterexample :
    compute_output c5CexGraph c5CexKinds [("A", 1)] = .ok [("X", 0), ("A", 1)] ∧
    compute_circuit c5CexGraph c5CexKinds [("A", 1)] [] =
      .ok ([("X", 1), ("A", 1)], []) ∧
    lookup [(("X" : String), (0 : Nat)), ("A", 1)] "X" = some 0 ∧
    lookup [(("X" : String), (1 : Nat)), ("A", 1)] "X" = some 1 :=
  ⟨rfl, rfl, rfl, rfl⟩
